import Mathlib

/-!
Shallow embedding of the input-embedding modules of `layers/Embed.py`
(time-series forecasting embeddings): FixedEmbedding, TemporalEmbedding,
TimeFeatureEmbedding, TokenEmbedding, PositionalEmbedding, the DataEmbedding
variants and PatchEmbedding.

Tensors are modelled as shape-annotated total index functions over an abstract
field `α`; the transcendental kernels `sin`, `cos`, `exp` and the float
constant `log(10000.0)` are abstract parameters, so every definition stays
computable and can be evaluated at `α = ℚ` with concrete instantiations.
Dropout is an abstract tensor-to-tensor function (its stochastic behaviour is
outside the value-level model).  Constructors that can raise a shape error in
the source (the slice assignments of `FixedEmbedding.__init__`, the dict
lookup of `TimeFeatureEmbedding.__init__`) return `Option`.
-/

namespace Embed

variable {α : Type}

/-- A 3-d tensor: three dimension sizes plus a total index function (values at
out-of-range indices are junk; shapes are tracked by the `dim` fields). -/
structure Tensor3 (α : Type) where
  dim0 : Nat
  dim1 : Nat
  dim2 : Nat
  val : Nat → Nat → Nat → α

/-- A 4-d tensor, used for the output of `Tensor.unfold` in PatchEmbedding. -/
structure Tensor4 (α : Type) where
  dim0 : Nat
  dim1 : Nat
  dim2 : Nat
  dim3 : Nat
  val : Nat → Nat → Nat → Nat → α

/-- Broadcast indexing: a dimension of size 1 is read at index 0 (torch
broadcasting), any other dimension is read at the given index. -/
def bcIdx (d i : Nat) : Nat := if d = 1 then 0 else i

/-- Elementwise tensor addition with torch-style broadcasting on size-1
dimensions (`a + b` on tensors). -/
def Tensor3.add [Add α] (t u : Tensor3 α) : Tensor3 α :=
  ⟨max t.dim0 u.dim0, max t.dim1 u.dim1, max t.dim2 u.dim2, fun b l c =>
    t.val (bcIdx t.dim0 b) (bcIdx t.dim1 l) (bcIdx t.dim2 c) +
    u.val (bcIdx u.dim0 b) (bcIdx u.dim1 l) (bcIdx u.dim2 c)⟩

/-- Scalar multiplication of a tensor. -/
def Tensor3.smul [Mul α] (a : α) (t : Tensor3 α) : Tensor3 α :=
  ⟨t.dim0, t.dim1, t.dim2, fun b l c => a * t.val b l c⟩

/-- The all-zeros tensor of a given shape. -/
def Tensor3.zeros (α : Type) [Zero α] (B L C : Nat) : Tensor3 α :=
  ⟨B, L, C, fun _ _ _ => 0⟩

/-- `x.permute(0, 2, 1)`: swap the last two dimensions. -/
def Tensor3.permute021 (x : Tensor3 α) : Tensor3 α :=
  ⟨x.dim0, x.dim2, x.dim1, fun b c l => x.val b l c⟩

/-- `torch.cat([x, y], 1)`: concatenation along dimension 1. -/
def Tensor3.cat1 (x y : Tensor3 α) : Tensor3 α :=
  ⟨x.dim0, x.dim1 + y.dim1, x.dim2, fun b v t =>
    if v < x.dim1 then x.val b v t else y.val b (v - x.dim1) t⟩

/-! ### The sinusoidal table construction shared by FixedEmbedding and
PositionalEmbedding: `w = zeros(rows, d)`, `w[:, 0::2] = sin(position *
div_term)`, `w[:, 1::2] = cos(position * div_term)`. -/

/-- Length of `torch.arange(0, d, 2)`, the number of even column indices
below `d` and the length of `div_term`. -/
def divTermLen (d : Nat) : Nat := (d + 1) / 2

/-- Number of odd column indices below `d`, the column count of the slice
`w[:, 1::2]`. -/
def numOdd (d : Nat) : Nat := d / 2

/-- `div_term[i] = exp((2*i) * -(log(10000.0) / d))`, elementwise from
`(torch.arange(0, d, 2).float() * -(math.log(10000.0) / d)).exp()`. -/
def divTerm [Field α] (exp : α → α) (log10000 : α) (d i : Nat) : α :=
  exp (((2 * i : Nat) : α) * -(log10000 / (d : α)))

/-- Slice assignment `w[:, 0::2] = src`: column `2*i` takes `src`'s column
`i`, other columns keep `w`'s value. -/
def assignEvenCols (w src : Nat → Nat → α) : Nat → Nat → α :=
  fun p c => if c % 2 = 0 then src p (c / 2) else w p c

/-- Slice assignment `w[:, 1::2] = src`: column `2*i + 1` takes `src`'s
column `i`, other columns keep `w`'s value. -/
def assignOddCols (w src : Nat → Nat → α) : Nat → Nat → α :=
  fun p c => if c % 2 = 1 then src p (c / 2) else w p c

/-- The sinusoidal table of width `d`: zeros, then the sine slice assignment
into even columns, then the cosine slice assignment into odd columns. -/
def buildTable [Field α] (sin cos exp : α → α) (log10000 : α) (d : Nat) :
    Nat → Nat → α :=
  assignOddCols
    (assignEvenCols (fun _ _ => 0)
      (fun p i => sin ((p : α) * divTerm exp log10000 d i)))
    (fun p i => cos ((p : α) * divTerm exp log10000 d i))

/-! ### FixedEmbedding -/

/-- An embedding lookup table (`nn.Embedding` or the fixed sinusoidal table),
with the `requires_grad` status of its weight. -/
structure EmbedTable (α : Type) where
  numEmbeddings : Nat
  dModel : Nat
  weight : Nat → Nat → α
  requiresGrad : Bool

/-- `FixedEmbedding.__init__`: builds the sinusoidal table of shape
`(c_in, d_model)`.  The slice assignment `w[:, 1::2] = cos(...)` copies a
`(c_in, divTermLen d)` tensor into the `(c_in, numOdd d)` slice; torch
broadcasting accepts this exactly when the column counts agree or the source
has a single column (a size-1 dimension expands to any size, including 0), and
raises a shape error otherwise, so the constructor is `Option`-valued.  The
weight is wrapped as `nn.Parameter(w, requires_grad=False)`. -/
def FixedEmbedding.init [Field α] (sin cos exp : α → α) (log10000 : α)
    (cIn d : Nat) : Option (EmbedTable α) :=
  if divTermLen d = numOdd d ∨ divTermLen d = 1 then
    some ⟨cIn, d, buildTable sin cos exp log10000 d, false⟩
  else none

/-- `FixedEmbedding.forward(x) = self.emb(x).detach()`: an embedding lookup on
a 2-d integer index tensor of shape `[B, L]`, detached from the autograd graph
(value-level identity). -/
def FixedEmbedding.forward (m : EmbedTable α) (B L : Nat)
    (ix : Nat → Nat → Int) : Tensor3 α :=
  ⟨B, L, m.dModel, fun b l c => m.weight (ix b l).toNat c⟩

/-- State-passing view of `FixedEmbedding.forward`: the method reads
`self.emb.weight` and performs no assignment, so the module comes back
unchanged. -/
def FixedEmbedding.forwardS (m : EmbedTable α) (B L : Nat)
    (ix : Nat → Nat → Int) : Tensor3 α × EmbedTable α :=
  (FixedEmbedding.forward m B L ix, m)

/-- A plain learned `nn.Embedding(c_in, d_model)` table: freshly initialised
(here: given) weights, trainable. -/
def nnEmbedding (learned : Nat → Nat → α) (cIn d : Nat) : EmbedTable α :=
  ⟨cIn, d, learned, true⟩

/-! ### TemporalEmbedding -/

/-- `Embed = FixedEmbedding if embed_type == 'fixed' else nn.Embedding`,
applied to one table. -/
def mkEmbed [Field α] (sin cos exp : α → α) (log10000 : α)
    (embedType : String) (learned : Nat → Nat → α) (cIn d : Nat) :
    Option (EmbedTable α) :=
  if embedType = "fixed" then FixedEmbedding.init sin cos exp log10000 cIn d
  else some (nnEmbedding learned cIn d)

/-- `TemporalEmbedding`: month/day/weekday/hour tables, plus a minute table
exactly when `freq == 't'`. -/
structure TemporalEmbedding (α : Type) where
  dModel : Nat
  freq : String
  minuteEmbed : Option (EmbedTable α)
  hourEmbed : EmbedTable α
  weekdayEmbed : EmbedTable α
  dayEmbed : EmbedTable α
  monthEmbed : EmbedTable α

/-- `TemporalEmbedding.__init__` with sizes `minute_size = 4`,
`hour_size = 24`, `weekday_size = 7`, `day_size = 32`, `month_size = 13`;
fails iff one of the `FixedEmbedding` constructions fails.  The `learned*`
arguments stand for the fresh random weights of the `nn.Embedding` branch. -/
def TemporalEmbedding.init [Field α] (sin cos exp : α → α) (log10000 : α)
    (dModel : Nat) (embedType freq : String)
    (learnedMin learnedHour learnedWeek learnedDay learnedMonth :
      Nat → Nat → α) : Option (TemporalEmbedding α) :=
  (if freq = "t" then
    Option.map some
      (mkEmbed sin cos exp log10000 embedType learnedMin 4 dModel)
   else some none).bind fun mi =>
  (mkEmbed sin cos exp log10000 embedType learnedHour 24 dModel).bind fun hh =>
  (mkEmbed sin cos exp log10000 embedType learnedWeek 7 dModel).bind fun ww =>
  (mkEmbed sin cos exp log10000 embedType learnedDay 32 dModel).bind fun dd =>
  (mkEmbed sin cos exp log10000 embedType learnedMonth 13 dModel).map fun mm =>
    ⟨dModel, freq, mi, hh, ww, dd, mm⟩

/-- `TemporalEmbedding.forward(x)`: `x = x.long()` (the abstract cast `long`),
then `hour_embed(x[:,:,3]) + weekday_embed(x[:,:,2]) + day_embed(x[:,:,1]) +
month_embed(x[:,:,0]) + minute_x`, where `minute_x` is the minute lookup when
the module has one (`freq == 't'`) and the Python float `0.` otherwise. -/
def TemporalEmbedding.forward [Field α] (long : α → Int)
    (m : TemporalEmbedding α) (x : Tensor3 α) : Tensor3 α :=
  ⟨x.dim0, x.dim1, m.dModel, fun b l c =>
    m.hourEmbed.weight (long (x.val b l 3)).toNat c +
    m.weekdayEmbed.weight (long (x.val b l 2)).toNat c +
    m.dayEmbed.weight (long (x.val b l 1)).toNat c +
    m.monthEmbed.weight (long (x.val b l 0)).toNat c +
    (match m.minuteEmbed with
     | some t => t.weight (long (x.val b l 4)).toNat c
     | none => 0)⟩

/-! ### TimeFeatureEmbedding -/

/-- The `freq_map` dict; lookup of a key outside the dict raises `KeyError`,
hence `Option`. -/
def freq_map (f : String) : Option Nat :=
  if f = "h" then some 4
  else if f = "t" then some 5
  else if f = "s" then some 6
  else if f = "m" then some 1
  else if f = "a" then some 1
  else if f = "w" then some 2
  else if f = "d" then some 3
  else if f = "b" then some 3
  else none

/-- `TimeFeatureEmbedding`: a single bias-free linear layer
`nn.Linear(d_inp, d_model, bias=False)`. -/
structure TimeFeatureEmbedding (α : Type) where
  dInp : Nat
  dModel : Nat
  weight : Nat → Nat → α

/-- `TimeFeatureEmbedding.__init__`: `d_inp = freq_map[freq]`. -/
def TimeFeatureEmbedding.init (d : Nat) (freq : String)
    (W : Nat → Nat → α) : Option (TimeFeatureEmbedding α) :=
  (freq_map freq).map fun dInp => ⟨dInp, d, W⟩

/-- `TimeFeatureEmbedding.forward(x) = self.embed(x)`: the bias-free linear
map applied along the last dimension. -/
def TimeFeatureEmbedding.forward [CommRing α] (m : TimeFeatureEmbedding α)
    (x : Tensor3 α) : Tensor3 α :=
  ⟨x.dim0, x.dim1, m.dModel, fun b l j =>
    ∑ i ∈ Finset.range m.dInp, m.weight j i * x.val b l i⟩

/-! ### PositionalEmbedding -/

/-- `d_model` rounded up to the next even number, as done at the top of
`PositionalEmbedding.__init__` before the table is built. -/
def roundEven (d : Nat) : Nat := if d % 2 ≠ 0 then d + 1 else d

/-- `PositionalEmbedding`: the precomputed sinusoidal buffer `pe` of shape
`[1, max_len, d_model]` (stored here as the index function `peVal`; when the
requested `d_model` was odd the table was built one column wider and then
truncated, which only narrows the recorded width).  `pe` is registered with
`register_buffer`, not as a parameter, so it is non-trainable. -/
structure PositionalEmbedding (α : Type) where
  dModel : Nat
  maxLen : Nat
  peVal : Nat → Nat → Nat → α
  peRequiresGrad : Bool

/-- `PositionalEmbedding.__init__(d_model, max_len=5000)`: build the table at
width `roundEven d_model` and truncate to `d_model` columns. -/
def PositionalEmbedding.init [Field α] (sin cos exp : α → α) (log10000 : α)
    (dModel : Nat) (maxLen : Nat) : PositionalEmbedding α :=
  ⟨dModel, maxLen,
   fun _ p c => buildTable sin cos exp log10000 (roundEven dModel) p c,
   false⟩

/-- `PositionalEmbedding.forward(x) = self.pe[:, :x.shape[1]]`: a slice of the
buffer; only `x.shape[1]` is read from the argument. -/
def PositionalEmbedding.forward (m : PositionalEmbedding α)
    (x : Tensor3 α) : Tensor3 α :=
  ⟨1, min x.dim1 m.maxLen, m.dModel, m.peVal⟩

/-- State-passing view of `PositionalEmbedding.forward`: the method reads
`self.pe` and performs no assignment, so the module comes back unchanged. -/
def PositionalEmbedding.forwardS (m : PositionalEmbedding α)
    (x : Tensor3 α) : Tensor3 α × PositionalEmbedding α :=
  (m.forward x, m)

/-- Several successive calls of `PositionalEmbedding.forward`, threading the
module state. -/
def PositionalEmbedding.runCalls (m : PositionalEmbedding α) :
    List (Tensor3 α) → List (Tensor3 α) × PositionalEmbedding α
  | [] => ([], m)
  | x :: xs =>
    let step := m.forwardS x
    let rest := step.2.runCalls xs
    (step.1 :: rest.1, rest.2)

/-! ### TokenEmbedding -/

/-- `TokenEmbedding`: `nn.Conv1d(c_in, d_model, kernel_size=3, padding=1,
padding_mode='circular', bias=False)` (padding 1 on torch >= 1.5.0); the
weight has shape `[d_model, c_in, 3]` and is Kaiming-initialised (here:
given). -/
structure TokenEmbedding (α : Type) where
  cIn : Nat
  dModel : Nat
  weight : Nat → Nat → Nat → α

/-- A kernel-size-3 1-d convolution with circular padding 1 and no bias over a
`[B, C, L]` tensor: the padded input at position `p` is
`x[.., .., (p + L - 1) % L]`, and output position `t` reads padded positions
`t`, `t+1`, `t+2`. -/
def conv1dCircular [CommRing α] (W : Nat → Nat → Nat → α)
    (dModel cIn : Nat) (x : Tensor3 α) : Tensor3 α :=
  ⟨x.dim0, dModel, x.dim2, fun b j t =>
    ∑ c ∈ Finset.range cIn, ∑ k ∈ Finset.range 3,
      W j c k * x.val b c ((t + k + x.dim2 - 1) % x.dim2)⟩

/-- `TokenEmbedding.forward(x) =
self.tokenConv(x.permute(0, 2, 1)).transpose(1, 2)`. -/
def TokenEmbedding.forward [CommRing α] (m : TokenEmbedding α)
    (x : Tensor3 α) : Tensor3 α :=
  (conv1dCircular m.weight m.dModel m.cIn x.permute021).permute021

/-! ### Top-level variants: DataEmbedding, DataEmbedding_inverted,
DataEmbedding_wo_pos -/

/-- The temporal submodule chosen at construction:
`TemporalEmbedding(...) if embed_type != 'timeF' else
TimeFeatureEmbedding(...)`. -/
inductive TemporalModule (α : Type) where
  | temporal (m : TemporalEmbedding α)
  | timeF (m : TimeFeatureEmbedding α)

/-- Apply whichever temporal submodule was constructed to the mark tensor. -/
def TemporalModule.apply [Field α] (long : α → Int) :
    TemporalModule α → Tensor3 α → Tensor3 α
  | .temporal m, xm => m.forward long xm
  | .timeF m, xm => m.forward xm

/-- `DataEmbedding`: token + positional + temporal embeddings and a dropout
(the dropout module is modelled as an abstract tensor function). -/
structure DataEmbedding (α : Type) where
  valueEmbedding : TokenEmbedding α
  positionEmbedding : PositionalEmbedding α
  temporalEmbedding : TemporalModule α
  dropout : Tensor3 α → Tensor3 α

/-- `DataEmbedding.__init__(c_in, d_model, embed_type='fixed', freq='h',
dropout=0.1)`: `TokenEmbedding(c_in, d_model)`,
`PositionalEmbedding(d_model)` (default `max_len = 5000`), and the temporal
module dispatched on `embed_type != 'timeF'`.  Fails iff the chosen temporal
constructor fails. -/
def DataEmbedding.init [Field α] (sin cos exp : α → α) (log10000 : α)
    (cIn dModel : Nat) (embedType freq : String)
    (tokW : Nat → Nat → Nat → α)
    (learnedMin learnedHour learnedWeek learnedDay learnedMonth :
      Nat → Nat → α)
    (timeFW : Nat → Nat → α) (drop : Tensor3 α → Tensor3 α) :
    Option (DataEmbedding α) :=
  (if embedType ≠ "timeF" then
    Option.map TemporalModule.temporal
      (TemporalEmbedding.init sin cos exp log10000 dModel embedType freq
        learnedMin learnedHour learnedWeek learnedDay learnedMonth)
   else
    Option.map TemporalModule.timeF
      (TimeFeatureEmbedding.init dModel freq timeFW)).map
    fun tm =>
      ⟨⟨cIn, dModel, tokW⟩,
       PositionalEmbedding.init sin cos exp log10000 dModel 5000,
       tm, drop⟩

/-- `DataEmbedding.forward(x, x_mark)`: with a mark,
`dropout(value_embedding(x) + temporal_embedding(x_mark) +
position_embedding(x))`; with `x_mark is None` the temporal term is
omitted. -/
def DataEmbedding.forward [Field α] (long : α → Int) (m : DataEmbedding α)
    (x : Tensor3 α) (xMark : Option (Tensor3 α)) : Tensor3 α :=
  match xMark with
  | none =>
    m.dropout ((m.valueEmbedding.forward x).add (m.positionEmbedding.forward x))
  | some xm =>
    m.dropout (((m.valueEmbedding.forward x).add
      (m.temporalEmbedding.apply long xm)).add (m.positionEmbedding.forward x))

/-- A full `nn.Linear(d_in, d_out)` (with bias) applied along the last
dimension of a 3-d tensor. -/
def linearForward [CommRing α] (W : Nat → Nat → α) (bias : Nat → α)
    (dIn dOut : Nat) (x : Tensor3 α) : Tensor3 α :=
  ⟨x.dim0, x.dim1, dOut, fun b v j =>
    (∑ i ∈ Finset.range dIn, W j i * x.val b v i) + bias j⟩

/-- `DataEmbedding_inverted`: a single `nn.Linear(c_in, d_model)` (with bias)
as value embedding, plus dropout. -/
structure DataEmbedding_inverted (α : Type) where
  cIn : Nat
  dModel : Nat
  weight : Nat → Nat → α
  bias : Nat → α
  dropout : Tensor3 α → Tensor3 α

/-- `DataEmbedding_inverted.forward(x, x_mark)`: permute `x` to
`[Batch, Variate, Time]`; with `x_mark is None` apply the linear layer
directly, otherwise concatenate the permuted mark along dimension 1 first;
then dropout. -/
def DataEmbedding_inverted.forward [CommRing α] (m : DataEmbedding_inverted α)
    (x : Tensor3 α) (xMark : Option (Tensor3 α)) : Tensor3 α :=
  match xMark with
  | none =>
    m.dropout (linearForward m.weight m.bias m.cIn m.dModel x.permute021)
  | some xm =>
    m.dropout (linearForward m.weight m.bias m.cIn m.dModel
      (x.permute021.cat1 xm.permute021))

/-- `DataEmbedding_wo_pos`: same submodules as `DataEmbedding` (the positional
embedding is constructed but never used in `forward`). -/
structure DataEmbedding_wo_pos (α : Type) where
  valueEmbedding : TokenEmbedding α
  positionEmbedding : PositionalEmbedding α
  temporalEmbedding : TemporalModule α
  dropout : Tensor3 α → Tensor3 α

/-- `DataEmbedding_wo_pos.forward(x, x_mark)`: with `x_mark is None`,
`dropout(value_embedding(x))`; otherwise `dropout(value_embedding(x) +
temporal_embedding(x_mark))`. -/
def DataEmbedding_wo_pos.forward [Field α] (long : α → Int)
    (m : DataEmbedding_wo_pos α) (x : Tensor3 α)
    (xMark : Option (Tensor3 α)) : Tensor3 α :=
  match xMark with
  | none => m.dropout (m.valueEmbedding.forward x)
  | some xm =>
    m.dropout ((m.valueEmbedding.forward x).add
      (m.temporalEmbedding.apply long xm))

/-! ### PatchEmbedding -/

/-- `nn.ReplicationPad1d((0, pad))`: pad the last dimension on the right by
`pad` copies of the last element. -/
def replicationPadRight (pad : Nat) (x : Tensor3 α) : Tensor3 α :=
  ⟨x.dim0, x.dim1, x.dim2 + pad, fun b c p => x.val b c (min p (x.dim2 - 1))⟩

/-- `x.unfold(dimension=-1, size, step)`: window `j` of the last dimension
starts at `j * step`; there are `(len - size) / step + 1` windows, each of
length `size`. -/
def Tensor3.unfoldLast (size step : Nat) (x : Tensor3 α) : Tensor4 α :=
  ⟨x.dim0, x.dim1, (x.dim2 - size) / step + 1, size,
   fun b c j k => x.val b c (j * step + k)⟩

/-- `torch.reshape(x, (x.shape[0] * x.shape[1], x.shape[2], x.shape[3]))`:
merge the first two dimensions (row-major). -/
def Tensor4.reshape3 (x : Tensor4 α) : Tensor3 α :=
  ⟨x.dim0 * x.dim1, x.dim2, x.dim3,
   fun bc j k => x.val (bc / x.dim1) (bc % x.dim1) j k⟩

/-- `PatchEmbedding(d_model, patch_len, stride, token_num, dropout)`: a right
replication pad of `stride`, a `TokenEmbedding(patch_len, d_model)` value
embedding, a `PositionalEmbedding(d_model)` and a dropout. -/
structure PatchEmbedding (α : Type) where
  patchLen : Nat
  stride : Nat
  valueEmbedding : TokenEmbedding α
  positionEmbedding : PositionalEmbedding α
  dropout : Tensor3 α → Tensor3 α

/-- `PatchEmbedding.forward(x)` on `x : [B, C, L]`: remember `n_channel =
x.shape[1]`, pad, unfold into windows, reshape to `(B*C, num, patch_len)`,
embed as value + positional, dropout, and return the pair with
`n_channel`. -/
def PatchEmbedding.forward [CommRing α] (m : PatchEmbedding α)
    (x : Tensor3 α) : Tensor3 α × Nat :=
  let nChannel := x.dim1
  let xPadded := replicationPadRight m.stride x
  let xUnfolded := xPadded.unfoldLast m.patchLen m.stride
  let x3 := xUnfolded.reshape3
  let ve := m.valueEmbedding.forward x3
  let pe := m.positionEmbedding.forward x3
  (m.dropout (ve.add pe), nChannel)

/-! ## Theorems -/

/-- Broadcast indexing on an in-range index is the identity. -/
theorem bcIdx_of_lt {d i : Nat} (h : i < d) : bcIdx d i = i := by
  unfold bcIdx
  split
  · omega
  · rfl

/-- C1: for every input `x` and every non-`None` `x_mark`,
`DataEmbedding.forward(x, x_mark)` is exactly dropout applied to the sum
`value_embedding(x) + temporal_embedding(x_mark) + position_embedding(x)`
(left-associated, in source order), and the temporal submodule chosen by the
constructor is `TimeFeatureEmbedding` when `embed_type == 'timeF'` and
`TemporalEmbedding` otherwise. -/
theorem DataEmbedding_forward_is_composition {α : Type} [Field α]
    (long : α → Int) (m : DataEmbedding α) (x xm : Tensor3 α)
    (sin cos exp : α → α) (log10000 : α) (cIn dModel : Nat)
    (embedType freq : String) (tokW : Nat → Nat → Nat → α)
    (lm lh lw ld lmo : Nat → Nat → α) (tfW : Nat → Nat → α)
    (drop : Tensor3 α → Tensor3 α) :
    DataEmbedding.forward long m x (some xm) =
      m.dropout (((m.valueEmbedding.forward x).add
        (m.temporalEmbedding.apply long xm)).add
        (m.positionEmbedding.forward x)) ∧
    Option.map (fun e => e.temporalEmbedding)
        (DataEmbedding.init sin cos exp log10000 cIn dModel embedType freq
          tokW lm lh lw ld lmo tfW drop) =
      (if embedType = "timeF" then
        Option.map TemporalModule.timeF
          (TimeFeatureEmbedding.init dModel freq tfW)
       else
        Option.map TemporalModule.temporal
          (TemporalEmbedding.init sin cos exp log10000 dModel embedType freq
            lm lh lw ld lmo)) := by
  constructor
  · rfl
  · by_cases het : embedType = "timeF"
    · simp only [DataEmbedding.init, het, if_pos, ite_true, ne_eq,
        not_true_eq_false, if_false, Option.map_map]
      cases TimeFeatureEmbedding.init dModel freq tfW <;> rfl
    · simp only [DataEmbedding.init, het, ne_eq, not_false_eq_true, if_true,
        if_false, ite_false, Option.map_map]
      cases TemporalEmbedding.init sin cos exp log10000 dModel embedType freq
        lm lh lw ld lmo <;> rfl

/-- C8: every top-level variant accepts `x_mark is None` and then omits the
temporal/mark term: `DataEmbedding` returns dropout of value + position,
`DataEmbedding_wo_pos` returns dropout of the value embedding alone, and
`DataEmbedding_inverted` returns dropout of the linear layer applied to the
permuted `x`, with no concatenation. -/
theorem forward_none_omits_mark {α : Type} [Field α] (long : α → Int)
    (m1 : DataEmbedding α) (m2 : DataEmbedding_wo_pos α)
    (m3 : DataEmbedding_inverted α) (x : Tensor3 α) :
    DataEmbedding.forward long m1 x none =
      m1.dropout ((m1.valueEmbedding.forward x).add
        (m1.positionEmbedding.forward x)) ∧
    DataEmbedding_wo_pos.forward long m2 x none =
      m2.dropout (m2.valueEmbedding.forward x) ∧
    DataEmbedding_inverted.forward m3 x none =
      m3.dropout (linearForward m3.weight m3.bias m3.cIn m3.dModel
        x.permute021) :=
  ⟨rfl, rfl, rfl⟩

/-- C10: `PositionalEmbedding.forward` reads nothing but `x.shape[1]`: two
inputs with the same sequence length (at most `max_len`) give the same output,
whose leading dimension is 1 regardless of the batch size. -/
theorem PositionalEmbedding_forward_shape_only {α : Type}
    (m : PositionalEmbedding α) (x1 x2 : Tensor3 α)
    (h : x1.dim1 = x2.dim1) (hmax : x1.dim1 ≤ m.maxLen) :
    m.forward x1 = m.forward x2 ∧ (m.forward x1).dim0 = 1 ∧
    (m.forward x1).dim1 = x1.dim1 := by
  refine ⟨?_, rfl, ?_⟩
  · simp [PositionalEmbedding.forward, h]
  · simp [PositionalEmbedding.forward, Nat.min_eq_left hmax]

/-- Witness for C10 at a concrete table and two concrete inputs that differ
in batch size, feature count and values but share sequence length 4. -/
theorem PositionalEmbedding_forward_shape_only_witness :
    (Tensor3.mk 1 4 1 (fun _ _ _ => (0 : ℚ))).dim1 =
      (Tensor3.mk 2 4 3 (fun _ _ _ => (1 : ℚ))).dim1 ∧
    (Tensor3.mk 1 4 1 (fun _ _ _ => (0 : ℚ))).dim1 ≤
      (PositionalEmbedding.init (α := ℚ) id id id 0 6 5000).maxLen ∧
    (PositionalEmbedding.init (α := ℚ) id id id 0 6 5000).forward
        (Tensor3.mk 1 4 1 (fun _ _ _ => 0)) =
      (PositionalEmbedding.init (α := ℚ) id id id 0 6 5000).forward
        (Tensor3.mk 2 4 3 (fun _ _ _ => 1)) :=
  ⟨rfl, by decide,
   (PositionalEmbedding_forward_shape_only
     (PositionalEmbedding.init (α := ℚ) id id id 0 6 5000)
     (Tensor3.mk 1 4 1 (fun _ _ _ => 0)) (Tensor3.mk 2 4 3 (fun _ _ _ => 1))
     rfl (by decide)).1⟩

/-- C3: the precomputed table of `PositionalEmbedding` satisfies
`pe[0, p, 2i] = sin(p * exp(-2i * ln(10000) / d))` and
`pe[0, p, 2i+1] = cos(p * exp(-2i * ln(10000) / d))` with `d = d_model`
rounded up to even; an odd `d_model` is padded by one column and the recorded
width is truncated back to `d_model`; and `forward` returns the slice
`pe[:, :x.shape[1]]` of shape `[1, x.shape[1], d_model]`. -/
theorem PositionalEmbedding_table_formula {α : Type} [Field α]
    (sin cos exp : α → α) (log10000 : α) (dModel maxLen p i : Nat)
    (x : Tensor3 α) (hp : p < maxLen) :
    (2 * i < dModel →
      (PositionalEmbedding.init sin cos exp log10000 dModel maxLen).peVal
          0 p (2 * i) =
        sin ((p : α) *
          exp (-(((2 * i : Nat) : α) * log10000) / (roundEven dModel : α)))) ∧
    (2 * i + 1 < dModel →
      (PositionalEmbedding.init sin cos exp log10000 dModel maxLen).peVal
          0 p (2 * i + 1) =
        cos ((p : α) *
          exp (-(((2 * i : Nat) : α) * log10000) / (roundEven dModel : α)))) ∧
    (PositionalEmbedding.init sin cos exp log10000 dModel maxLen).dModel =
      dModel ∧
    (dModel % 2 = 1 → roundEven dModel = dModel + 1) ∧
    (x.dim1 ≤ maxLen →
      (PositionalEmbedding.init sin cos exp log10000 dModel maxLen).forward x =
        ⟨1, x.dim1, dModel,
         (PositionalEmbedding.init sin cos exp log10000 dModel maxLen).peVal⟩) := by
  have harg : ((2 * i : Nat) : α) * -(log10000 / (roundEven dModel : α)) =
      -(((2 * i : Nat) : α) * log10000) / (roundEven dModel : α) := by
    ring
  have hmod0 : 2 * i % 2 = 0 := by omega
  have hmod1 : ¬2 * i % 2 = 1 := by omega
  have hdiv : 2 * i / 2 = i := by omega
  have hmod1' : (2 * i + 1) % 2 = 1 := by omega
  have hdiv' : (2 * i + 1) / 2 = i := by omega
  refine ⟨?_, ?_, rfl, ?_, ?_⟩
  · intro _
    show buildTable sin cos exp log10000 (roundEven dModel) p (2 * i) = _
    rw [buildTable, assignOddCols, assignEvenCols]
    rw [if_neg hmod1, if_pos hmod0, hdiv, divTerm, harg]
  · intro _
    show buildTable sin cos exp log10000 (roundEven dModel) p (2 * i + 1) = _
    rw [buildTable, assignOddCols]
    rw [if_pos hmod1', hdiv', divTerm, harg]
  · intro h
    simp only [roundEven, h]
    rfl
  · intro h
    simp [PositionalEmbedding.forward, PositionalEmbedding.init,
      Nat.min_eq_left h]

/-- Witness for C3 at `d_model = 3` (odd, so the table is built at width 4),
`max_len = 5`, position 1, index 0. -/
theorem PositionalEmbedding_table_formula_witness :
    (1 : Nat) < 5 ∧ 2 * 0 < 3 ∧ 2 * 0 + 1 < 3 ∧
    (PositionalEmbedding.init (α := ℚ) id id id 1 3 5).peVal 0 1 (2 * 0) =
      id (((1 : Nat) : ℚ) *
        id (-(((2 * 0 : Nat) : ℚ) * 1) / ((roundEven 3 : Nat) : ℚ))) ∧
    (PositionalEmbedding.init (α := ℚ) id id id 1 3 5).peVal 0 1 (2 * 0 + 1) =
      id (((1 : Nat) : ℚ) *
        id (-(((2 * 0 : Nat) : ℚ) * 1) / ((roundEven 3 : Nat) : ℚ))) :=
  ⟨by decide, by decide, by decide,
   (PositionalEmbedding_table_formula id id id 1 3 5 1 0
     (Tensor3.zeros ℚ 1 1 1) (by decide)).1 (by decide),
   (PositionalEmbedding_table_formula id id id 1 3 5 1 0
     (Tensor3.zeros ℚ 1 1 1) (by decide)).2.1 (by decide)⟩

/-- C6: the positional and fixed-calendar tables are fixed: any sequence of
`PositionalEmbedding.forward` calls leaves the module unchanged,
`FixedEmbedding.forward` leaves its table unchanged, the `FixedEmbedding`
weight is constructed with `requires_grad = False`, the positional buffer is
non-trainable, and two calls with the same sequence length return identical
values. -/
theorem fixed_tables_not_mutated {α : Type} [Field α]
    (sc cc ec : α → α) (l10 : α)
    (m : PositionalEmbedding α) (xs : List (Tensor3 α))
    (t : EmbedTable α) (B L : Nat) (ix : Nat → Nat → Int)
    (cIn d maxLen : Nat) (t' : EmbedTable α) (x1 x2 : Tensor3 α) :
    (m.runCalls xs).2 = m ∧
    (FixedEmbedding.forwardS t B L ix).2 = t ∧
    (FixedEmbedding.init sc cc ec l10 cIn d = some t' →
      t'.requiresGrad = false) ∧
    (PositionalEmbedding.init sc cc ec l10 d maxLen).peRequiresGrad = false ∧
    (x1.dim1 = x2.dim1 → m.forward x1 = m.forward x2) := by
  refine ⟨?_, rfl, ?_, rfl, ?_⟩
  · induction xs with
    | nil => rfl
    | cons x xs ih =>
      simpa [PositionalEmbedding.runCalls, PositionalEmbedding.forwardS]
        using ih
  · intro h
    rw [FixedEmbedding.init] at h
    split at h
    · cases h
      rfl
    · exact Option.noConfusion h
  · intro h
    simp [PositionalEmbedding.forward, h]

/-- Witness for C6 at a concrete fixed table (`c_in = 24`, `d_model = 2`) and
one concrete positional-embedding call. -/
theorem fixed_tables_not_mutated_witness :
    FixedEmbedding.init (α := ℚ) id id id 1 24 2 =
      some ⟨24, 2, buildTable id id id 1 2, false⟩ ∧
    (⟨24, 2, buildTable id id id 1 2, false⟩ : EmbedTable ℚ).requiresGrad =
      false ∧
    ((PositionalEmbedding.init (α := ℚ) id id id 1 2 7).runCalls
      [Tensor3.zeros ℚ 1 1 1]).2 =
      PositionalEmbedding.init (α := ℚ) id id id 1 2 7 :=
  ⟨rfl,
   (fixed_tables_not_mutated id id (α := ℚ) id 1
     (PositionalEmbedding.init (α := ℚ) id id id 1 2 7)
     [Tensor3.zeros ℚ 1 1 1] ⟨1, 1, fun _ _ => 0, false⟩ 1 1
     (fun _ _ => 0) 24 2 7 ⟨24, 2, buildTable id id id 1 2, false⟩
     (Tensor3.zeros ℚ 1 1 1) (Tensor3.zeros ℚ 1 1 1)).2.2.1 rfl,
   (fixed_tables_not_mutated id id (α := ℚ) id 1
     (PositionalEmbedding.init (α := ℚ) id id id 1 2 7)
     [Tensor3.zeros ℚ 1 1 1] ⟨1, 1, fun _ _ => 0, false⟩ 1 1
     (fun _ _ => 0) 24 2 7 ⟨24, 2, buildTable id id id 1 2, false⟩
     (Tensor3.zeros ℚ 1 1 1) (Tensor3.zeros ℚ 1 1 1)).1⟩

/-- For odd width at least 3 the cosine slice assignment of
`FixedEmbedding.__init__` offers `(d+1)/2` source columns to `d/2`
destination columns with neither count 1 nor equal, so the constructor
raises. -/
theorem fixedInit_none_of_odd {α : Type} [Field α] (sc cc ec : α → α)
    (l10 : α) (cIn d : Nat) (h1 : d % 2 = 1) (h2 : 3 ≤ d) :
    FixedEmbedding.init sc cc ec l10 cIn d = none := by
  have hg : ¬(divTermLen d = numOdd d ∨ divTermLen d = 1) := by
    simp only [divTermLen, numOdd]
    omega
  rw [FixedEmbedding.init, if_neg hg]

/-- C9 counterexample: at `d_model = 1`, an odd width, `FixedEmbedding`
construction succeeds — the cosine source has a single column, which torch
broadcasting expands into the empty odd-column slice — so the claim that the
constructor fails for every odd `d_model` is false. -/
theorem FixedEmbedding_init_odd_one_succeeds :
    (FixedEmbedding.init (α := ℚ) id id id 1 13 1).isSome = true ∧
    1 % 2 = 1 :=
  ⟨rfl, rfl⟩

/-- C9 (amended): `FixedEmbedding` construction fails exactly at odd
`d_model >= 3` (and succeeds at even `d_model` and at `d_model = 1`), so
`TemporalEmbedding` with `embed_type == 'fixed'` also fails at odd
`d_model >= 3`, unlike `PositionalEmbedding`, which keeps the requested
width and whose internal cosine assignment always matches after rounding up
to even. -/
theorem FixedEmbedding_odd_dmodel_fails {α : Type} [Field α]
    (sc cc ec : α → α) (l10 : α) (cIn d maxLen : Nat) (freq : String)
    (lm lh lw ld lmo : Nat → Nat → α) :
    (d % 2 = 1 → 3 ≤ d → FixedEmbedding.init sc cc ec l10 cIn d = none) ∧
    (d % 2 = 0 → (FixedEmbedding.init sc cc ec l10 cIn d).isSome = true) ∧
    (FixedEmbedding.init sc cc ec l10 cIn 1).isSome = true ∧
    (d % 2 = 1 → 3 ≤ d →
      TemporalEmbedding.init sc cc ec l10 d ("fixed") freq lm lh lw ld lmo =
        none) ∧
    (PositionalEmbedding.init sc cc ec l10 d maxLen).dModel = d ∧
    divTermLen (roundEven d) = numOdd (roundEven d) := by
  refine ⟨fun h1 h2 => fixedInit_none_of_odd sc cc ec l10 cIn d h1 h2,
    ?_, ?_, ?_, rfl, ?_⟩
  · intro h
    rw [FixedEmbedding.init, if_pos]
    · rfl
    · left
      simp only [divTermLen, numOdd]
      omega
  · rw [FixedEmbedding.init, if_pos]
    · rfl
    · right
      rfl
  · intro h1 h2
    have h24 := fixedInit_none_of_odd sc cc ec l10 24 d h1 h2
    have h4 := fixedInit_none_of_odd sc cc ec l10 4 d h1 h2
    by_cases hf : freq = "t" <;>
      simp [TemporalEmbedding.init, mkEmbed, hf, h24, h4]
  · simp only [divTermLen, numOdd, roundEven]
    split <;> omega

/-- Witness for C9 (amended) at the odd width 5. -/
theorem FixedEmbedding_odd_dmodel_fails_witness :
    5 % 2 = 1 ∧ 3 ≤ 5 ∧
    FixedEmbedding.init (α := ℚ) id id id 1 13 5 = none ∧
    TemporalEmbedding.init (α := ℚ) id id id 1 5 ("fixed") "h"
      (fun _ _ => 0) (fun _ _ => 0) (fun _ _ => 0) (fun _ _ => 0)
      (fun _ _ => 0) = none :=
  ⟨rfl, by decide,
   (FixedEmbedding_odd_dmodel_fails id id (α := ℚ) id 1 13 5 9 ("h")
     (fun _ _ => 0) (fun _ _ => 0) (fun _ _ => 0) (fun _ _ => 0)
     (fun _ _ => 0)).1 rfl (by decide),
   (FixedEmbedding_odd_dmodel_fails id id (α := ℚ) id 1 13 5 9 ("h")
     (fun _ _ => 0) (fun _ _ => 0) (fun _ _ => 0) (fun _ _ => 0)
     (fun _ _ => 0)).2.2.2.1 rfl (by decide)⟩

/-- C7: `TimeFeatureEmbedding` is exactly linear: its bias-free layer
satisfies `embed(a*x + b*y) = a*embed(x) + b*embed(y)` pointwise on matching
shapes and `embed(0) = 0`, and the input dimension is chosen by `freq_map`
with `h->4, t->5, s->6, m->1, a->1, w->2, d->3, b->3`. -/
theorem TimeFeatureEmbedding_linear {α : Type} [Field α]
    (m : TimeFeatureEmbedding α) (x y : Tensor3 α) (a b : α)
    (bi li j : Nat) (B L C b0 l0 j0 : Nat)
    (freq : String) (dmo : Nat) (W : Nat → Nat → α)
    (m' : TimeFeatureEmbedding α)
    (hd0 : x.dim0 = y.dim0) (hd1 : x.dim1 = y.dim1) (hd2 : x.dim2 = y.dim2)
    (hin : x.dim2 = m.dInp) (hb : bi < x.dim0) (hl : li < x.dim1) :
    ((m.forward ((x.smul a).add (y.smul b))).val bi li j =
      a * (m.forward x).val bi li j + b * (m.forward y).val bi li j) ∧
    (m.forward (Tensor3.zeros α B L C)).val b0 l0 j0 = 0 ∧
    freq_map ("h") = some 4 ∧ freq_map ("t") = some 5 ∧ freq_map ("s") = some 6 ∧
    freq_map ("m") = some 1 ∧ freq_map ("a") = some 1 ∧ freq_map ("w") = some 2 ∧
    freq_map ("d") = some 3 ∧ freq_map ("b") = some 3 ∧
    (TimeFeatureEmbedding.init dmo freq W = some m' →
      freq_map freq = some m'.dInp) := by
  refine ⟨?_, ?_, rfl, rfl, rfl, rfl, rfl, rfl, rfl, rfl, ?_⟩
  · have hsum : ∀ i ∈ Finset.range m.dInp,
        m.weight j i * ((x.smul a).add (y.smul b)).val bi li i =
          a * (m.weight j i * x.val bi li i) +
          b * (m.weight j i * y.val bi li i) := by
      intro i hi
      have hi' : i < x.dim2 := by
        rw [hin]
        exact Finset.mem_range.mp hi
      show m.weight j i *
          (a * x.val (bcIdx x.dim0 bi) (bcIdx x.dim1 li) (bcIdx x.dim2 i) +
           b * y.val (bcIdx y.dim0 bi) (bcIdx y.dim1 li) (bcIdx y.dim2 i)) = _
      rw [bcIdx_of_lt hb, bcIdx_of_lt hl, bcIdx_of_lt hi',
        bcIdx_of_lt (hd0 ▸ hb), bcIdx_of_lt (hd1 ▸ hl), bcIdx_of_lt (hd2 ▸ hi')]
      ring
    show (∑ i ∈ Finset.range m.dInp,
        m.weight j i * ((x.smul a).add (y.smul b)).val bi li i) = _
    rw [Finset.sum_congr rfl hsum, Finset.sum_add_distrib,
      ← Finset.mul_sum, ← Finset.mul_sum]
    rfl
  · show (∑ i ∈ Finset.range m.dInp, m.weight j0 i * (0 : α)) = 0
    simp
  · intro h
    rw [TimeFeatureEmbedding.init] at h
    cases hf : freq_map freq with
    | none =>
      rw [hf] at h
      exact Option.noConfusion h
    | some v =>
      rw [hf, Option.map_some'] at h
      injection h with h2
      rw [← h2]

/-- Witness for C7 on a concrete 2-input, 1-output layer with weights 1 and
the combination `2*x + 3*y`. -/
theorem TimeFeatureEmbedding_linear_witness :
    (Tensor3.mk 1 1 2 (fun _ _ c => (c : ℚ))).dim0 =
      (Tensor3.mk 1 1 2 (fun _ _ _ => (1 : ℚ))).dim0 ∧
    (Tensor3.mk 1 1 2 (fun _ _ c => (c : ℚ))).dim2 =
      (TimeFeatureEmbedding.mk 2 1 (fun _ _ => (1 : ℚ))).dInp ∧
    ((TimeFeatureEmbedding.mk 2 1 (fun _ _ => (1 : ℚ))).forward
        (((Tensor3.mk 1 1 2 (fun _ _ c => (c : ℚ))).smul 2).add
          ((Tensor3.mk 1 1 2 (fun _ _ _ => (1 : ℚ))).smul 3))).val 0 0 0 =
      2 * ((TimeFeatureEmbedding.mk 2 1 (fun _ _ => (1 : ℚ))).forward
        (Tensor3.mk 1 1 2 (fun _ _ c => (c : ℚ)))).val 0 0 0 +
      3 * ((TimeFeatureEmbedding.mk 2 1 (fun _ _ => (1 : ℚ))).forward
        (Tensor3.mk 1 1 2 (fun _ _ _ => (1 : ℚ)))).val 0 0 0 :=
  ⟨rfl, rfl,
   (TimeFeatureEmbedding_linear (TimeFeatureEmbedding.mk 2 1 (fun _ _ => 1))
     (Tensor3.mk 1 1 2 (fun _ _ c => (c : ℚ)))
     (Tensor3.mk 1 1 2 (fun _ _ _ => 1)) 2 3 0 0 0 1 1 1 0 0 0 ("h") 1
     (fun _ _ => 1) (TimeFeatureEmbedding.mk 2 1 (fun _ _ => 1))
     rfl rfl rfl rfl (by decide) (by decide)).1⟩

/-- Any table built by the `Embed` dispatch records the requested
`(num_embeddings, d_model)` pair. -/
theorem mkEmbed_shape {α : Type} [Field α] {sc cc ec : α → α} {l10 : α}
    {et : String} {lw : Nat → Nat → α} {cIn d : Nat} {t : EmbedTable α}
    (h : mkEmbed sc cc ec l10 et lw cIn d = some t) :
    t.numEmbeddings = cIn ∧ t.dModel = d := by
  rw [mkEmbed] at h
  split at h
  · rw [FixedEmbedding.init] at h
    split at h
    · cases h
      exact ⟨rfl, rfl⟩
    · exact Option.noConfusion h
  · cases h
    exact ⟨rfl, rfl⟩

/-- With `embed_type == 'fixed'`, a successfully built table is the
non-trainable sinusoidal one. -/
theorem mkEmbed_fixed_inv {α : Type} [Field α] {sc cc ec : α → α} {l10 : α}
    {lw : Nat → Nat → α} {cIn d : Nat} {t : EmbedTable α}
    (h : mkEmbed sc cc ec l10 ("fixed") lw cIn d = some t) :
    t.weight = buildTable sc cc ec l10 d ∧ t.requiresGrad = false := by
  rw [mkEmbed, if_pos rfl, FixedEmbedding.init] at h
  split at h
  · cases h
    exact ⟨rfl, rfl⟩
  · exact Option.noConfusion h

/-- With any other `embed_type`, the built table is the trainable
`nn.Embedding` one. -/
theorem mkEmbed_learned_inv {α : Type} [Field α] {sc cc ec : α → α}
    {l10 : α} {et : String} {lw : Nat → Nat → α} {cIn d : Nat}
    {t : EmbedTable α} (hne : et ≠ "fixed")
    (h : mkEmbed sc cc ec l10 et lw cIn d = some t) :
    t = nnEmbedding lw cIn d := by
  rw [mkEmbed, if_neg hne] at h
  cases h
  rfl

/-- C4: a constructed `TemporalEmbedding` returns the elementwise sum of the
month/day/weekday/hour lookups of columns 0..3, plus the minute lookup of
column 4 exactly when `freq == 't'` (otherwise the minute term is the scalar
0); the tables have sizes minute 4, hour 24, weekday 7, day 32, month 13; and
with `embed_type == 'fixed'` they are non-trainable sinusoidal tables while
any other `embed_type` yields trainable `nn.Embedding` tables. -/
theorem TemporalEmbedding_forward_sum {α : Type} [Field α]
    (sc cc ec : α → α) (l10 : α) (long : α → Int) (dModel : Nat)
    (embedType freq : String) (lm lh lw ld lmo : Nat → Nat → α)
    (m : TemporalEmbedding α) (x : Tensor3 α)
    (hm : TemporalEmbedding.init sc cc ec l10 dModel embedType freq
      lm lh lw ld lmo = some m)
    (hK : (if freq = "t" then 5 else 4) ≤ x.dim2) :
    ((m.forward long x).dim0 = x.dim0 ∧ (m.forward long x).dim1 = x.dim1 ∧
      (m.forward long x).dim2 = dModel) ∧
    (freq = "t" → ∃ t, m.minuteEmbed = some t ∧ t.numEmbeddings = 4 ∧
      ∀ b l c, (m.forward long x).val b l c =
        m.monthEmbed.weight (long (x.val b l 0)).toNat c +
        m.dayEmbed.weight (long (x.val b l 1)).toNat c +
        m.weekdayEmbed.weight (long (x.val b l 2)).toNat c +
        m.hourEmbed.weight (long (x.val b l 3)).toNat c +
        t.weight (long (x.val b l 4)).toNat c) ∧
    (freq ≠ "t" → m.minuteEmbed = none ∧
      ∀ b l c, (m.forward long x).val b l c =
        m.monthEmbed.weight (long (x.val b l 0)).toNat c +
        m.dayEmbed.weight (long (x.val b l 1)).toNat c +
        m.weekdayEmbed.weight (long (x.val b l 2)).toNat c +
        m.hourEmbed.weight (long (x.val b l 3)).toNat c) ∧
    (m.hourEmbed.numEmbeddings = 24 ∧ m.weekdayEmbed.numEmbeddings = 7 ∧
      m.dayEmbed.numEmbeddings = 32 ∧ m.monthEmbed.numEmbeddings = 13) ∧
    (embedType = "fixed" →
      (m.hourEmbed.weight = buildTable sc cc ec l10 dModel ∧
        m.hourEmbed.requiresGrad = false) ∧
      (m.weekdayEmbed.weight = buildTable sc cc ec l10 dModel ∧
        m.weekdayEmbed.requiresGrad = false) ∧
      (m.dayEmbed.weight = buildTable sc cc ec l10 dModel ∧
        m.dayEmbed.requiresGrad = false) ∧
      (m.monthEmbed.weight = buildTable sc cc ec l10 dModel ∧
        m.monthEmbed.requiresGrad = false) ∧
      ∀ t, m.minuteEmbed = some t →
        t.weight = buildTable sc cc ec l10 dModel ∧
        t.requiresGrad = false) ∧
    (embedType ≠ "fixed" →
      m.hourEmbed = nnEmbedding lh 24 dModel ∧
      m.weekdayEmbed = nnEmbedding lw 7 dModel ∧
      m.dayEmbed = nnEmbedding ld 32 dModel ∧
      m.monthEmbed = nnEmbedding lmo 13 dModel ∧
      (freq = "t" → m.minuteEmbed = some (nnEmbedding lm 4 dModel))) := by
  rw [TemporalEmbedding.init] at hm
  simp only [Option.bind_eq_some, Option.map_eq_some'] at hm
  obtain ⟨mi, hmi, hh, hhh, ww, hww, dd, hdd, mm, hmm, hstruct⟩ := hm
  subst hstruct
  refine ⟨⟨rfl, rfl, rfl⟩, ?_, ?_, ?_, ?_, ?_⟩
  · intro hf
    rw [if_pos hf, Option.map_eq_some'] at hmi
    obtain ⟨t, ht, hmi2⟩ := hmi
    subst hmi2
    refine ⟨t, rfl, (mkEmbed_shape ht).1, ?_⟩
    intro b l c
    show hh.weight (long (x.val b l 3)).toNat c +
        ww.weight (long (x.val b l 2)).toNat c +
        dd.weight (long (x.val b l 1)).toNat c +
        mm.weight (long (x.val b l 0)).toNat c +
        t.weight (long (x.val b l 4)).toNat c = _
    ring
  · intro hf
    rw [if_neg hf] at hmi
    cases hmi
    refine ⟨rfl, ?_⟩
    intro b l c
    show hh.weight (long (x.val b l 3)).toNat c +
        ww.weight (long (x.val b l 2)).toNat c +
        dd.weight (long (x.val b l 1)).toNat c +
        mm.weight (long (x.val b l 0)).toNat c + 0 = _
    ring
  · exact ⟨(mkEmbed_shape hhh).1, (mkEmbed_shape hww).1,
      (mkEmbed_shape hdd).1, (mkEmbed_shape hmm).1⟩
  · intro he
    subst he
    refine ⟨mkEmbed_fixed_inv hhh, mkEmbed_fixed_inv hww,
      mkEmbed_fixed_inv hdd, mkEmbed_fixed_inv hmm, ?_⟩
    intro t ht
    by_cases hf : freq = "t"
    · rw [if_pos hf, Option.map_eq_some'] at hmi
      obtain ⟨t', ht', hmi2⟩ := hmi
      rw [← hmi2] at ht
      injection ht with ht3
      exact ht3 ▸ mkEmbed_fixed_inv ht'
    · rw [if_neg hf] at hmi
      cases hmi
      exact Option.noConfusion ht
  · intro he
    refine ⟨mkEmbed_learned_inv he hhh, mkEmbed_learned_inv he hww,
      mkEmbed_learned_inv he hdd, mkEmbed_learned_inv he hmm, ?_⟩
    intro hf
    rw [if_pos hf, Option.map_eq_some'] at hmi
    obtain ⟨t', ht', hmi2⟩ := hmi
    rw [← hmi2, mkEmbed_learned_inv he ht']

/-- Concrete sample weights and input used by the C4 witness. -/
def sampleW2 : Nat → Nat → ℚ := fun _ _ => 2

/-- A concrete `[1, 1, 5]` mark tensor for the C4 witness. -/
def sampleX5 : Tensor3 ℚ := ⟨1, 1, 5, fun _ _ _ => 0⟩

/-- The concrete learned temporal module the C4 witness constructs. -/
def sampleTemporal : TemporalEmbedding ℚ :=
  ⟨1, "t", some (nnEmbedding sampleW2 4 1), nnEmbedding sampleW2 24 1,
   nnEmbedding sampleW2 7 1, nnEmbedding sampleW2 32 1,
   nnEmbedding sampleW2 13 1⟩

/-- Witness for C4: a learned (`embed_type = "learn"`) minute-frequency
module over a `[1, 1, 5]` mark tensor. -/
theorem TemporalEmbedding_forward_sum_witness :
    TemporalEmbedding.init (α := ℚ) id id id 1 1 ("learn") "t"
      sampleW2 sampleW2 sampleW2 sampleW2 sampleW2 = some sampleTemporal ∧
    (if ("t") = "t" then 5 else 4) ≤ sampleX5.dim2 ∧
    sampleTemporal.hourEmbed.numEmbeddings = 24 ∧
    sampleTemporal.hourEmbed = nnEmbedding sampleW2 24 1 ∧
    (sampleTemporal.forward (fun _ => (1 : Int)) sampleX5).dim2 = 1 :=
  ⟨rfl, by decide,
   (TemporalEmbedding_forward_sum id id id 1 (fun _ => (1 : Int)) 1
     "learn" "t" sampleW2 sampleW2 sampleW2 sampleW2 sampleW2
     sampleTemporal sampleX5 rfl (by decide)).2.2.2.1.1,
   ((TemporalEmbedding_forward_sum id id id 1 (fun _ => (1 : Int)) 1
     "learn" "t" sampleW2 sampleW2 sampleW2 sampleW2 sampleW2
     sampleTemporal sampleX5 rfl (by decide)).2.2.2.2.2 (by decide)).1,
   (TemporalEmbedding_forward_sum id id id 1 (fun _ => (1 : Int)) 1
     "learn" "t" sampleW2 sampleW2 sampleW2 sampleW2 sampleW2
     sampleTemporal sampleX5 rfl (by decide)).1.2.2⟩

/-- C5: `TokenEmbedding.forward` is a strictly local circular convolution:
on inputs of shape `[B, L, c_in]` with `L >= 2`, the output at `[b, t, :]`
depends only on the input rows `(t-1) mod L`, `t` and `(t+1) mod L` (two
inputs agreeing there agree at that output position), and the output has
shape `[B, L, d_model]`. -/
theorem TokenEmbedding_forward_local {α : Type} [CommRing α]
    (m : TokenEmbedding α) (x1 x2 : Tensor3 α) (b t : Nat)
    (hL : 2 ≤ x1.dim1) (ht : t < x1.dim1)
    (hd0 : x1.dim0 = x2.dim0) (hd1 : x1.dim1 = x2.dim1)
    (hd2 : x1.dim2 = x2.dim2) (hcin : x1.dim2 = m.cIn)
    (hprev : ∀ c, x1.val b ((t + x1.dim1 - 1) % x1.dim1) c =
      x2.val b ((t + x1.dim1 - 1) % x1.dim1) c)
    (hcur : ∀ c, x1.val b t c = x2.val b t c)
    (hnext : ∀ c, x1.val b ((t + 1) % x1.dim1) c =
      x2.val b ((t + 1) % x1.dim1) c) :
    (∀ j, (m.forward x1).val b t j = (m.forward x2).val b t j) ∧
    (m.forward x1).dim0 = x1.dim0 ∧ (m.forward x1).dim1 = x1.dim1 ∧
    (m.forward x1).dim2 = m.dModel := by
  refine ⟨?_, rfl, rfl, rfl⟩
  intro j
  show (∑ c ∈ Finset.range m.cIn, ∑ k ∈ Finset.range 3,
      m.weight j c k * x1.val b ((t + k + x1.dim1 - 1) % x1.dim1) c) =
    ∑ c ∈ Finset.range m.cIn, ∑ k ∈ Finset.range 3,
      m.weight j c k * x2.val b ((t + k + x2.dim1 - 1) % x2.dim1) c
  rw [← hd1]
  refine Finset.sum_congr rfl ?_
  intro c _
  refine Finset.sum_congr rfl ?_
  intro k hk
  have hk3 : k < 3 := Finset.mem_range.mp hk
  congr 1
  interval_cases k
  · have h0 : t + 0 + x1.dim1 - 1 = t + x1.dim1 - 1 := by omega
    rw [h0]
    exact hprev c
  · have h1 : t + 1 + x1.dim1 - 1 = t + x1.dim1 := by omega
    rw [h1, Nat.add_mod_right, Nat.mod_eq_of_lt ht]
    exact hcur c
  · have h2 : t + 2 + x1.dim1 - 1 = t + 1 + x1.dim1 := by omega
    rw [h2, Nat.add_mod_right]
    exact hnext c

/-- A concrete 1-channel kernel for the C5 witness. -/
def sampleTok : TokenEmbedding ℚ := ⟨1, 1, fun _ _ _ => 1⟩

/-- Two concrete `[1, 2, 1]` inputs for the C5 witness that agree at every
time step. -/
def sampleSeqA : Tensor3 ℚ := ⟨1, 2, 1, fun _ l _ => l⟩

/-- The second C5 witness input: same values on the two valid time steps,
different junk outside the valid index range. -/
def sampleSeqB : Tensor3 ℚ := ⟨1, 2, 1, fun _ l _ => min l 7⟩

/-- Witness for C5 at `L = 2`, `t = 0`. -/
theorem TokenEmbedding_forward_local_witness :
    2 ≤ sampleSeqA.dim1 ∧ 0 < sampleSeqA.dim1 ∧
    (sampleTok.forward sampleSeqA).val 0 0 0 =
      (sampleTok.forward sampleSeqB).val 0 0 0 :=
  ⟨by decide, by decide,
   (TokenEmbedding_forward_local sampleTok sampleSeqA sampleSeqB 0 0
     (by decide) (by decide) rfl rfl rfl rfl
     (fun c => by simp [sampleSeqA, sampleSeqB])
     (fun c => by simp [sampleSeqA, sampleSeqB])
     (fun c => by simp [sampleSeqA, sampleSeqB])).1 0⟩

/-- C2: `PatchEmbedding.forward` right-pads the sequence with `stride` copies
of its last element, extracts `floor((L + stride - patch_len)/stride) + 1`
windows `padded[..., j*stride : j*stride + patch_len]` of length exactly
`patch_len` (consecutive windows overlapping in `patch_len - stride`
positions when `stride < patch_len`), reshapes them to
`(B*C, num_windows, patch_len)`, embeds them as token + positional embedding
followed by dropout, and returns the original channel count unchanged. -/
theorem PatchEmbedding_forward_windows {α : Type} [CommRing α]
    (m : PatchEmbedding α) (x : Tensor3 α)
    (hstride : 1 ≤ m.stride) (hlen : m.patchLen ≤ x.dim2 + m.stride)
    (hL : 1 ≤ x.dim2) :
    ((replicationPadRight m.stride x).dim2 = x.dim2 + m.stride ∧
      (∀ b c p, p < x.dim2 →
        (replicationPadRight m.stride x).val b c p = x.val b c p) ∧
      (∀ b c p, x.dim2 ≤ p →
        (replicationPadRight m.stride x).val b c p =
          x.val b c (x.dim2 - 1))) ∧
    (((replicationPadRight m.stride x).unfoldLast m.patchLen m.stride).dim2 =
        (x.dim2 + m.stride - m.patchLen) / m.stride + 1 ∧
      ((replicationPadRight m.stride x).unfoldLast m.patchLen
        m.stride).dim3 = m.patchLen ∧
      ∀ b c j k,
        ((replicationPadRight m.stride x).unfoldLast m.patchLen
            m.stride).val b c j k =
          (replicationPadRight m.stride x).val b c (j * m.stride + k)) ∧
    (m.stride < m.patchLen →
      ∀ b c j k, k < m.patchLen - m.stride →
        ((replicationPadRight m.stride x).unfoldLast m.patchLen
            m.stride).val b c (j + 1) k =
          ((replicationPadRight m.stride x).unfoldLast m.patchLen
            m.stride).val b c j (k + m.stride)) ∧
    ((((replicationPadRight m.stride x).unfoldLast m.patchLen
        m.stride).reshape3).dim0 = x.dim0 * x.dim1 ∧
      (((replicationPadRight m.stride x).unfoldLast m.patchLen
        m.stride).reshape3).dim1 =
        (x.dim2 + m.stride - m.patchLen) / m.stride + 1 ∧
      (((replicationPadRight m.stride x).unfoldLast m.patchLen
        m.stride).reshape3).dim2 = m.patchLen) ∧
    ((m.forward x).1 =
      m.dropout ((m.valueEmbedding.forward
          (((replicationPadRight m.stride x).unfoldLast m.patchLen
            m.stride).reshape3)).add
        (m.positionEmbedding.forward
          (((replicationPadRight m.stride x).unfoldLast m.patchLen
            m.stride).reshape3))) ∧
      (m.forward x).2 = x.dim1) := by
  refine ⟨⟨rfl, ?_, ?_⟩, ⟨rfl, rfl, fun b c j k => rfl⟩, ?_, ⟨rfl, rfl, rfl⟩,
    rfl, rfl⟩
  · intro b c p hplt
    show x.val b c (min p (x.dim2 - 1)) = x.val b c p
    congr 1
    omega
  · intro b c p hge
    show x.val b c (min p (x.dim2 - 1)) = x.val b c (x.dim2 - 1)
    congr 1
    omega
  · intro hov b c j k hk
    show (replicationPadRight m.stride x).val b c ((j + 1) * m.stride + k) =
      (replicationPadRight m.stride x).val b c (j * m.stride + (k + m.stride))
    congr 1
    ring

/-- A concrete patch module for the C2 witness: `patch_len = 2`,
`stride = 1`, identity dropout. -/
def samplePatch : PatchEmbedding ℚ :=
  ⟨2, 1, ⟨2, 1, fun _ _ _ => 1⟩, PositionalEmbedding.init id id id 1 1 5000,
   fun t => t⟩

/-- A concrete `[1, 1, 2]` input for the C2 witness. -/
def samplePatchInput : Tensor3 ℚ := ⟨1, 1, 2, fun _ _ p => p⟩

/-- Witness for C2: on a length-2 sequence with `stride = 1` the padded
value at position 2 repeats the last element, and the channel count comes
back unchanged. -/
theorem PatchEmbedding_forward_windows_witness :
    1 ≤ samplePatch.stride ∧
    samplePatch.patchLen ≤ samplePatchInput.dim2 + samplePatch.stride ∧
    (replicationPadRight samplePatch.stride samplePatchInput).val 0 0 2 =
      samplePatchInput.val 0 0 (samplePatchInput.dim2 - 1) ∧
    (samplePatch.forward samplePatchInput).2 = samplePatchInput.dim1 :=
  ⟨by decide, by decide,
   (PatchEmbedding_forward_windows samplePatch samplePatchInput (by decide)
     (by decide) (by decide)).1.2.2 0 0 2 (by decide),
   (PatchEmbedding_forward_windows samplePatch samplePatchInput (by decide)
     (by decide) (by decide)).2.2.2.2.2⟩

end Embed
